import Mathlib

/-!
Verification model of the coral Redis-compatible server.

Byte buffers are modelled as `List Nat` (one entry per byte). Rust `String`
values are modelled as their UTF-8 byte sequences, so every payload carried
by a frame is a `List Nat` together with the UTF-8 validity that Rust
enforces at construction time. Wall-clock time is an abstract `Nat` instant.

Sources modelled:
  - src/protocol/resp.rs      (RespValue, RespParser)
  - src/protocol/inline.rs    (InlineParser)
  - src/protocol/detector.rs  (detect_format)
  - src/server/handler.rs     (Handler command dispatch, HELLO, stream loop)
  - src/storage/traits.rs     (StorageValue, expiry)
  - src/storage/memory.rs     (MemoryStorage)
  - src/storage/lmdb.rs       (LmdbStorage keys_count)
-/

/-- UTF-8 bytes of a pure-ASCII Lean string literal; used to transcribe the
ASCII string literals appearing in the Rust source. -/
def ascii (s : String) : List Nat := s.data.map Char.toNat

/-- carriage return, line feed. -/
def crlf : List Nat := [13, 10]

/-- Whether a byte is an ASCII decimal digit. -/
def isDigitB (c : Nat) : Bool := 48 ≤ c && c ≤ 57

/-- Numeric value of a list of ASCII digit bytes (most significant first),
as accumulated by the standard decimal-parsing loop. -/
def digitsVal (l : List Nat) : Nat := l.foldl (fun a d => a * 10 + (d - 48)) 0

/-- Decimal digit bytes of `n`, most significant first, with explicit fuel
so that the definition is structural.  `fuel` larger than `n` suffices. -/
def natToDigitsAux : Nat → Nat → List Nat
  | 0, _ => []
  | fuel + 1, n =>
    if n < 10 then [48 + n] else natToDigitsAux fuel (n / 10) ++ [48 + n % 10]

/-- Decimal digit bytes of `n`; models the Display rendering of an unsigned
integer in the source. -/
def natToDigits (n : Nat) : List Nat := natToDigitsAux (n + 1) n

/-- Model of Rust unsigned-integer `FromStr` (used for `u8` and `u64`):
an optional leading plus sign, then one or more ASCII digits, rejecting
values above `limit` (checked-arithmetic overflow in the source). -/
def parseUDec (limit : Nat) (s : List Nat) : Option Nat :=
  let digits := if s.head? = some 43 then s.tail else s
  if digits.isEmpty then none
  else if digits.all isDigitB then
    if digitsVal digits ≤ limit then some (digitsVal digits) else none
  else none

/-- Model of `str::parse::<u8>` (handler.rs HELLO version parsing). -/
def parseU8 (s : List Nat) : Option Nat := parseUDec 255 s

/-- Model of `str::parse::<u64>` (handler.rs SET EX ttl parsing). -/
def parseU64 (s : List Nat) : Option Nat := parseUDec (2 ^ 64 - 1) s

/-- Model of `str::parse::<i64>`: an optional sign then digits, within the
two-complement 64-bit range. -/
def parseI64 (s : List Nat) : Option Int :=
  if s.head? = some 45 then
    let digits := s.tail
    if digits.isEmpty then none
    else if digits.all isDigitB then
      if digitsVal digits ≤ 2 ^ 63 then some (-(digitsVal digits : Int)) else none
    else none
  else
    match parseUDec (2 ^ 63 - 1) s with
    | some v => some (v : Int)
    | none => none

/-- Decimal rendering of a signed 64-bit integer, models `format` on `i64`. -/
def intToBytes (i : Int) : List Nat :=
  if i < 0 then 45 :: natToDigits i.natAbs else natToDigits i.natAbs

/-- ASCII lowercasing of one byte (`A`-`Z` mapped down, rest unchanged). -/
def toLowerByte (b : Nat) : Nat := if 65 ≤ b ∧ b ≤ 90 then b + 32 else b

/-- Model of `str::eq_ignore_ascii_case`. -/
def eqIgnoreAsciiCase (s t : List Nat) : Bool :=
  s.map toLowerByte == t.map toLowerByte

/-- UTF-8 continuation byte (10xxxxxx). -/
def isCont (b : Nat) : Bool := 128 ≤ b && b ≤ 191

/-- One step per byte of UTF-8 validation: `pending` continuation bytes
are still expected, the next of which must lie in `lo..hi` (tightened
after E0, ED, F0 and F4 lead bytes exactly as in the standard table used
by the Rust validator). -/
def utf8Aux : List Nat → Nat → Nat → Nat → Bool
  | [], 0, _, _ => true
  | [], _ + 1, _, _ => false
  | c :: rest, 0, _, _ =>
    if c ≤ 127 then utf8Aux rest 0 0 0
    else if 194 ≤ c ∧ c ≤ 223 then utf8Aux rest 1 128 191
    else if c = 224 then utf8Aux rest 2 160 191
    else if 225 ≤ c ∧ c ≤ 236 then utf8Aux rest 2 128 191
    else if c = 237 then utf8Aux rest 2 128 159
    else if 238 ≤ c ∧ c ≤ 239 then utf8Aux rest 2 128 191
    else if c = 240 then utf8Aux rest 3 144 191
    else if 241 ≤ c ∧ c ≤ 243 then utf8Aux rest 3 128 191
    else if c = 244 then utf8Aux rest 3 128 143
    else false
  | c :: rest, n + 1, lo, hi =>
    if lo ≤ c ∧ c ≤ hi then utf8Aux rest n 128 191 else false

/-- UTF-8 validity of a byte sequence; models the check performed by
`String::from_utf8` / `str::from_utf8` in the source. -/
def utf8Valid (l : List Nat) : Bool := utf8Aux l 0 0 0

/-- UTF-8 bytes of the character a (sub-256) byte is cast to by `as char`
in the source error-message formatting. -/
def charUtf8 (b : Nat) : List Nat :=
  if b ≤ 127 then [b] else [192 + b / 64, 128 + b % 64]

/-- Index of the first CRLF window in a byte list; models
`buffer.windows(2).position` with the two-byte CRLF pattern. -/
def findCrlf : List Nat → Option Nat
  | [] => none
  | [_] => none
  | a :: b :: rest =>
    if a = 13 ∧ b = 10 then some 0
    else (findCrlf (b :: rest)).map (· + 1)

/-- Split a byte list at the first occurrence of byte `c`; helper for the
floating-point literal recognizer. -/
def splitFirst (c : Nat) : List Nat → List Nat × Option (List Nat)
  | [] => ([], none)
  | b :: rest =>
    if b = c then ([], some rest)
    else
      let r := splitFirst c rest
      (b :: r.1, r.2)

/-- Mantissa part of a decimal floating literal: digits with an optional
point, at least one digit overall. -/
def f64Mantissa (l : List Nat) : Bool :=
  let intPart := l.takeWhile isDigitB
  let rest := l.dropWhile isDigitB
  match rest with
  | [] => !intPart.isEmpty
  | 46 :: frac => (!intPart.isEmpty || !frac.isEmpty) && frac.all isDigitB
  | _ => false

/-- Exponent part of a decimal floating literal. -/
def f64Exp (l : List Nat) : Bool :=
  let body := if l.head? = some 43 ∨ l.head? = some 45 then l.tail else l
  !body.isEmpty && body.all isDigitB

/-- Syntactic acceptance of `str::parse::<f64>`: optional sign, then
inf, infinity or nan (case-insensitive) or mantissa with optional exponent.
Only the accepted-or-rejected outcome is modelled; floating-point values
themselves are outside the embedding. -/
def f64ParseOk (s : List Nat) : Bool :=
  let lower := s.map toLowerByte
  let body := if lower.head? = some 43 ∨ lower.head? = some 45 then lower.tail else lower
  if body = ascii "inf" ∨ body = ascii "infinity" ∨ body = ascii "nan" then true
  else
    match splitFirst 101 body with
    | (mant, none) => f64Mantissa mant
    | (mant, some exp) => f64Mantissa mant && f64Exp exp

mutual
/-- The RESP value domain, from `enum RespValue` in src/protocol/resp.rs.
String payloads are carried as their UTF-8 byte sequences; `double` carries
the textual rendering of the floating-point value, since floating point is
not modelled. Vectors are carried as the mutually defined `RVList` and
`RVPairs` cons-lists. -/
inductive RespValue where
  | simpleString (s : List Nat)
  | error (e : List Nat)
  | integer (i : Int)
  | bulkString (s : Option (List Nat))
  | array (a : Option RVList)
  | null
  | boolean (b : Bool)
  | double (d : List Nat)
  | set (items : RVList)
  | map (pairs : RVPairs)
/-- A vector of RESP values (`Vec<RespValue>` in the source). -/
inductive RVList where
  | nil
  | cons (head : RespValue) (tail : RVList)
/-- A vector of key-value pairs (`Vec<(RespValue, RespValue)>`). -/
inductive RVPairs where
  | nil
  | cons (key : RespValue) (value : RespValue) (tail : RVPairs)
end

/-- Number of elements of an `RVList`. -/
def RVList.length : RVList → Nat
  | .nil => 0
  | .cons _ t => RVList.length t + 1

/-- Number of pairs of an `RVPairs`. -/
def RVPairs.length : RVPairs → Nat
  | .nil => 0
  | .cons _ _ t => RVPairs.length t + 1

/-- Membership of a value in an `RVList`. -/
def RVList.Mem (v : RespValue) : RVList → Prop
  | .nil => False
  | .cons h t => v = h ∨ RVList.Mem v t

/-- Membership of a pair in an `RVPairs`. -/
def RVPairs.Mem (kv : RespValue × RespValue) : RVPairs → Prop
  | .nil => False
  | .cons k v t => kv = (k, v) ∨ RVPairs.Mem kv t

/-- Convert a Lean list of values to an `RVList`. -/
def rvlOf : List RespValue → RVList
  | [] => .nil
  | v :: rest => .cons v (rvlOf rest)

/-- Convert an `RVList` to a Lean list. -/
def RVList.toList : RVList → List RespValue
  | .nil => []
  | .cons v t => v :: RVList.toList t

/-- Convert a Lean list of pairs to an `RVPairs`. -/
def rvpOf : List (RespValue × RespValue) → RVPairs
  | [] => .nil
  | (k, v) :: rest => .cons k v (rvpOf rest)

mutual
/-- Wire encoding of a RESP value; models `RespValue::to_bytes`
(src/protocol/resp.rs lines 27-65). -/
def RespValue.toBytes : RespValue → List Nat
  | .simpleString s => 43 :: (s ++ crlf)
  | .error e => 45 :: (e ++ crlf)
  | .integer i => 58 :: (intToBytes i ++ crlf)
  | .bulkString (some s) => 36 :: (natToDigits s.length ++ crlf ++ s ++ crlf)
  | .bulkString none => 36 :: (45 :: 49 :: crlf)
  | .array (some l) => 42 :: (natToDigits (RVList.length l) ++ crlf ++ RVList.toBytes l)
  | .array none => 42 :: (45 :: 49 :: crlf)
  | .null => 95 :: crlf
  | .boolean true => 35 :: (116 :: crlf)
  | .boolean false => 35 :: (102 :: crlf)
  | .double d => 44 :: (d ++ crlf)
  | .set l => 126 :: (natToDigits (RVList.length l) ++ crlf ++ RVList.toBytes l)
  | .map ps => 37 :: (natToDigits (RVPairs.length ps) ++ crlf ++ RVPairs.toBytes ps)
/-- Concatenated encodings of the elements of a vector of values. -/
def RVList.toBytes : RVList → List Nat
  | .nil => []
  | .cons v t => RespValue.toBytes v ++ RVList.toBytes t
/-- Concatenated encodings of the pairs of a vector of pairs. -/
def RVPairs.toBytes : RVPairs → List Nat
  | .nil => []
  | .cons k v t => RespValue.toBytes k ++ RespValue.toBytes v ++ RVPairs.toBytes t
end

mutual
/-- Structural size of a value, used for strong induction over the nested
value/vector structure. -/
def RespValue.size : RespValue → Nat
  | .array (some l) => RVList.size l + 1
  | .set l => RVList.size l + 1
  | .map ps => RVPairs.size ps + 1
  | _ => 1
/-- Summed sizes of the elements of a vector. -/
def RVList.size : RVList → Nat
  | .nil => 0
  | .cons v t => RespValue.size v + RVList.size t
/-- Summed sizes of the pairs of a vector. -/
def RVPairs.size : RVPairs → Nat
  | .nil => 0
  | .cons k v t => RespValue.size k + RespValue.size v + RVPairs.size t
end

mutual
/-- Well-formedness of a value as produced by the Rust data types: string
payloads are valid UTF-8 (they are Rust `String`s), line-framed payloads
(simple strings and errors) contain no CRLF, integers lie in the `i64`
range, vector lengths fit in `i64`, and `double` frames are excluded
because floating point is not modelled. -/
def RespValue.wfb : RespValue → Bool
  | .simpleString s => (findCrlf s).isNone && utf8Valid s
  | .error e => (findCrlf e).isNone && utf8Valid e
  | .integer i => decide (-(2 ^ 63 : Int) ≤ i) && decide (i < 2 ^ 63)
  | .bulkString (some s) => utf8Valid s && decide (s.length < 2 ^ 63)
  | .bulkString none => true
  | .array (some l) => decide (RVList.length l < 2 ^ 63) && RVList.wfb l
  | .array none => true
  | .null => true
  | .boolean _ => true
  | .double _ => false
  | .set l => decide (RVList.length l < 2 ^ 63) && RVList.wfb l
  | .map ps => decide (RVPairs.length ps < 2 ^ 63) && RVPairs.wfb ps
/-- All elements of the vector are well formed. -/
def RVList.wfb : RVList → Bool
  | .nil => true
  | .cons v t => RespValue.wfb v && RVList.wfb t
/-- All pairs of the vector are well formed. -/
def RVPairs.wfb : RVPairs → Bool
  | .nil => true
  | .cons k v t => RespValue.wfb k && RespValue.wfb v && RVPairs.wfb t
end

/-- Whether a value is a non-null bulk string (the argument shape required
by the command handlers). -/
def RespValue.isBulk : RespValue → Bool
  | .bulkString (some _) => true
  | _ => false

/-- Whether a value is an error frame. -/
def RespValue.isError : RespValue → Bool
  | .error _ => true
  | _ => false

/-- Result of `RespParser::read_line` (src/protocol/resp.rs lines 267-279):
a CRLF-terminated line with the buffer after it, not found yet, or a UTF-8
failure with the buffer state left after the consuming split. -/
inductive LineRes where
  | line (s : List Nat) (rest : List Nat)
  | more
  | bad (msg : List Nat) (rest : List Nat)

/-- Model of `RespParser::read_line`: find the first CRLF, split the line
off the buffer, and require the line to be valid UTF-8. On `more` nothing
is consumed. -/
def readLine (buf : List Nat) : LineRes :=
  match findCrlf buf with
  | some pos =>
    let lineData := buf.take pos
    let rest := buf.drop (pos + 2)
    if utf8Valid lineData then .line lineData rest else .bad (ascii "Invalid UTF-8") rest
  | none => .more

/-- Result of one `parse_value` call: a complete value with the buffer
after it, an incomplete parse with the (possibly already consumed) buffer
state, or a protocol error with its message and buffer state. -/
inductive PRes where
  | val (v : RespValue) (rest : List Nat)
  | incomplete (rest : List Nat)
  | err (msg : List Nat) (rest : List Nat)

/-- Result of the element loop of `parse_array` / `parse_set`. -/
inductive ListRes where
  | done (vs : RVList) (rest : List Nat)
  | more (rest : List Nat)
  | bad (msg : List Nat) (rest : List Nat)

/-- Result of the pair loop of `parse_map`. -/
inductive PairsRes where
  | done (ps : RVPairs) (rest : List Nat)
  | more (rest : List Nat)
  | bad (msg : List Nat) (rest : List Nat)

/-- Model of `RespParser::parse_simple_string` (lines 171-177); the buffer
argument is the state after the type byte was consumed. -/
def parseSimpleString (buf : List Nat) : PRes :=
  match readLine buf with
  | .line s rest => .val (.simpleString s) rest
  | .more => .incomplete buf
  | .bad m rest => .err m rest

/-- Model of `RespParser::parse_error` (lines 179-185). -/
def parseErrorFrame (buf : List Nat) : PRes :=
  match readLine buf with
  | .line s rest => .val (.error s) rest
  | .more => .incomplete buf
  | .bad m rest => .err m rest

/-- Model of `RespParser::parse_integer` (lines 187-196). -/
def parseIntegerFrame (buf : List Nat) : PRes :=
  match readLine buf with
  | .line s rest =>
    match parseI64 s with
    | some n => .val (.integer n) rest
    | none => .err (ascii "Invalid integer") rest
  | .more => .incomplete buf
  | .bad m rest => .err m rest

/-- Model of `RespParser::parse_bulk_string` (lines 198-233): length header,
`-1` null case, negative-length error, payload with UTF-8 validation, and
a conditional skip of the trailing CRLF. -/
def parseBulkString (buf : List Nat) : PRes :=
  match readLine buf with
  | .line lenStr rest =>
    match parseI64 lenStr with
    | none => .err (ascii "Invalid bulk string length") rest
    | some len =>
      if len = -1 then .val (.bulkString none) rest
      else if len < 0 then .err (ascii "Invalid bulk string length") rest
      else
        let l := len.toNat
        if rest.length < l + 2 then .incomplete rest
        else
          let dataB := rest.take l
          let rest2 := rest.drop l
          if utf8Valid dataB then
            let rest3 := if rest2.take 2 = crlf then rest2.drop 2 else rest2
            .val (.bulkString (some dataB)) rest3
          else .err (ascii "Invalid UTF-8") rest2
  | .more => .incomplete buf
  | .bad m rest => .err m rest

/-- Model of `RespParser::parse_null` (lines 282-290). -/
def parseNullFrame (buf : List Nat) : PRes :=
  if buf.take 2 = crlf then .val .null (buf.drop 2) else .incomplete buf

/-- Model of `RespParser::parse_boolean` (lines 292-313). -/
def parseBooleanFrame (buf : List Nat) : PRes :=
  match buf with
  | b0 :: b1 :: b2 :: rest =>
    if b0 = 116 then
      if b1 = 13 ∧ b2 = 10 then .val (.boolean true) rest else .incomplete buf
    else if b0 = 102 then
      if b1 = 13 ∧ b2 = 10 then .val (.boolean false) rest else .incomplete buf
    else .err (ascii "Invalid boolean value: " ++ charUtf8 b0) buf
  | _ => .incomplete buf

/-- Model of `RespParser::parse_double` (lines 315-324); the accepted
literal text is carried as the payload. -/
def parseDoubleFrame (buf : List Nat) : PRes :=
  match readLine buf with
  | .line s rest =>
    if f64ParseOk s then .val (.double s) rest else .err (ascii "Invalid double") rest
  | .more => .incomplete buf
  | .bad m rest => .err m rest

/-- The element loop shared by `parse_array` and `parse_set`: parse `n`
values with the given value parser, propagating incompleteness and errors
together with the buffer state reached. -/
def parseElemsF (pv : List Nat → PRes) : Nat → List Nat → ListRes
  | 0, buf => .done .nil buf
  | n + 1, buf =>
    match pv buf with
    | .val v rest =>
      match parseElemsF pv n rest with
      | .done vs rest2 => .done (.cons v vs) rest2
      | r => r
    | .incomplete rest => .more rest
    | .err m rest => .bad m rest

/-- The pair loop of `parse_map`: parse `n` key-value pairs. -/
def parsePairsF (pv : List Nat → PRes) : Nat → List Nat → PairsRes
  | 0, buf => .done .nil buf
  | n + 1, buf =>
    match pv buf with
    | .val k rest =>
      match pv rest with
      | .val v rest2 =>
        match parsePairsF pv n rest2 with
        | .done ps rest3 => .done (.cons k v ps) rest3
        | r => r
      | .incomplete rest2 => .more rest2
      | .err m rest2 => .bad m rest2
    | .incomplete rest => .more rest
    | .err m rest => .bad m rest

/-- Model of `RespParser::parse_array` (lines 235-265). -/
def parseArrayFrame (pv : List Nat → PRes) (buf : List Nat) : PRes :=
  match readLine buf with
  | .line lenStr rest =>
    match parseI64 lenStr with
    | none => .err (ascii "Invalid array length") rest
    | some len =>
      if len = -1 then .val (.array none) rest
      else if len < 0 then .err (ascii "Invalid array length") rest
      else
        match parseElemsF pv len.toNat rest with
        | .done vs rest2 => .val (.array (some vs)) rest2
        | .more rest2 => .incomplete rest2
        | .bad m rest2 => .err m rest2
  | .more => .incomplete buf
  | .bad m rest => .err m rest

/-- Model of `RespParser::parse_set` (lines 326-352): like an array but
with no `-1` null case. -/
def parseSetFrame (pv : List Nat → PRes) (buf : List Nat) : PRes :=
  match readLine buf with
  | .line lenStr rest =>
    match parseI64 lenStr with
    | none => .err (ascii "Invalid set length") rest
    | some len =>
      if len < 0 then .err (ascii "Invalid set length") rest
      else
        match parseElemsF pv len.toNat rest with
        | .done vs rest2 => .val (.set vs) rest2
        | .more rest2 => .incomplete rest2
        | .bad m rest2 => .err m rest2
  | .more => .incomplete buf
  | .bad m rest => .err m rest

/-- Model of `RespParser::parse_map` (lines 354-388). -/
def parseMapFrame (pv : List Nat → PRes) (buf : List Nat) : PRes :=
  match readLine buf with
  | .line lenStr rest =>
    match parseI64 lenStr with
    | none => .err (ascii "Invalid map length") rest
    | some len =>
      if len < 0 then .err (ascii "Invalid map length") rest
      else
        match parsePairsF pv len.toNat rest with
        | .done ps rest2 => .val (.map ps) rest2
        | .more rest2 => .incomplete rest2
        | .bad m rest2 => .err m rest2
  | .more => .incomplete buf
  | .bad m rest => .err m rest

/-- Model of `RespParser::parse_value` (src/protocol/resp.rs lines 139-169),
indexed by fuel so the nested recursion through arrays, sets and maps is
structural. Every complete sub-parse consumes at least one byte, so any
fuel exceeding the buffer length is enough; the fuel-zero fallthrough is
unreachable under the fuel used by `RespParser.parse` below. -/
def parseValueF : Nat → List Nat → PRes
  | 0 => fun buf => .incomplete buf
  | fuel + 1 => fun buf =>
    match buf with
    | [] => .incomplete []
    | t :: rest =>
      if t = 43 then parseSimpleString rest
      else if t = 45 then parseErrorFrame rest
      else if t = 58 then parseIntegerFrame rest
      else if t = 36 then parseBulkString rest
      else if t = 42 then parseArrayFrame (parseValueF fuel) rest
      else if t = 95 then parseNullFrame rest
      else if t = 35 then parseBooleanFrame rest
      else if t = 44 then parseDoubleFrame rest
      else if t = 126 then parseSetFrame (parseValueF fuel) rest
      else if t = 37 then parseMapFrame (parseValueF fuel) rest
      else .err (ascii "Invalid RESP type byte: " ++ charUtf8 t) rest

/-- The ten RESP type bytes recognized by the format detector. -/
def isRespTypeByte (b : Nat) : Bool :=
  b = 43 || b = 45 || b = 58 || b = 36 || b = 42 ||
  b = 95 || b = 35 || b = 44 || b = 126 || b = 37

/-- Protocol format chosen by the detector. -/
inductive ProtocolFormat where
  | resp
  | inline
  deriving DecidableEq

/-- Model of `detect_format` (src/protocol/detector.rs lines 16-29). -/
def detectFormat (buf : List Nat) : Option ProtocolFormat :=
  match buf with
  | [] => none
  | b :: _ => some (if isRespTypeByte b then .resp else .inline)

/-- Model of `InlineParser::parse_command_line` (src/protocol/inline.rs
lines 48-103), processed byte by byte. On valid UTF-8 input this agrees
with the character loop of the source, because every byte the loop treats
specially (quote, space, tab, backslash) is ASCII and multi-byte
characters pass through the accumulating arm unchanged. -/
def parseCommandLine : List Nat → Bool → List Nat → List (List Nat) →
    Except (List Nat) (List (List Nat))
  | [], inQ, current, parts =>
    if inQ then .error (ascii "Unclosed quote in inline command")
    else .ok (parts ++ if current.isEmpty then [] else [current])
  | c :: rest, inQ, current, parts =>
    if c = 34 then
      parseCommandLine rest (!inQ) current parts
    else if (c = 32 ∨ c = 9) ∧ inQ = false then
      if current.isEmpty then parseCommandLine rest inQ [] parts
      else parseCommandLine rest inQ [] (parts ++ [current])
    else if c = 92 ∧ inQ = true then
      match rest with
      | [] => parseCommandLine [] inQ current parts
      | e :: rest2 =>
        let pushed :=
          if e = 110 then [10] else if e = 114 then [13] else if e = 116 then [9]
          else if e = 34 then [34] else if e = 92 then [92] else [92, e]
        parseCommandLine rest2 inQ (current ++ pushed) parts
  else parseCommandLine rest inQ (current ++ [c]) parts

/-- Model of `InlineParser::parse` (src/protocol/inline.rs lines 16-45):
find the CRLF terminator, require valid UTF-8, tokenize, and promote the
tokens to an array of bulk strings; no tokens means incomplete. -/
def inlineParse (buf : List Nat) : Except (List Nat) (Option RespValue) :=
  match findCrlf buf with
  | none => .ok none
  | some pos =>
    let lineData := buf.take pos
    if utf8Valid lineData then
      match parseCommandLine lineData false [] [] with
      | .error m => .error m
      | .ok parts =>
        if parts.isEmpty then .ok none
        else .ok (some (.array (some (rvlOf (parts.map (fun p => .bulkString (some p)))))))
    else .error (ascii "Invalid UTF-8 in inline command")

/-- Model of `InlineParser::bytes_consumed` (lines 107-113). -/
def bytesConsumed (buf : List Nat) : Nat :=
  match findCrlf buf with
  | some pos => pos + 2
  | none => 0

/-- Model of `RespParser::parse` (src/protocol/resp.rs lines 101-137) on
the residual buffer. Returns the parse outcome together with the new
buffer. The RESP incomplete arm reproduces `buffer.truncate(original_len)`
faithfully: truncation keeps at most the first `original_len` bytes of the
*current* buffer, and therefore cannot restore bytes that `parse_value`
already consumed from the front. -/
def RespParser.parse (buf : List Nat) :
    Except (List Nat) (Option RespValue) × List Nat :=
  if buf.isEmpty then (.ok none, buf)
  else
    match detectFormat buf with
    | some .inline =>
      match inlineParse buf with
      | .ok (some v) => (.ok (some v), buf.drop (bytesConsumed buf))
      | .ok none => (.ok none, buf)
      | .error e => (.error e, buf)
    | some .resp =>
      match parseValueF (buf.length + 1) buf with
      | .val v rest => (.ok (some v), rest)
      | .incomplete rest => (.ok none, rest.take buf.length)
      | .err m rest => (.error m, rest)
    | none => (.ok none, buf)

/-- A stored record: payload plus optional absolute expiry instant; models
`StorageValue` (src/storage/traits.rs lines 7-12). -/
structure StorageValue where
  data : List Nat
  expiresAt : Option Nat
  deriving DecidableEq

/-- Model of `StorageValue::is_expired` (src/storage/traits.rs lines
32-37): expired iff an expiry is set and the current instant is strictly
greater. -/
def StorageValue.isExpired (now : Nat) (v : StorageValue) : Bool :=
  match v.expiresAt with
  | some e => decide (e < now)
  | none => false

/-- The in-memory concurrent map of `MemoryStorage`, modelled as an
association list with at most one entry per key. -/
abbrev MemoryState := List (List Nat × StorageValue)

/-- Record stored under a key, if any (`guard.get(key)`). -/
def memLookup (k : List Nat) (st : MemoryState) : Option StorageValue :=
  (st.find? (fun e => e.1 == k)).map (fun e => e.2)

/-- Map without the key (`guard.remove(key)`). -/
def memErase (k : List Nat) (st : MemoryState) : MemoryState :=
  st.filter (fun e => !(e.1 == k))

/-- Map with the key bound to the record (`guard.insert`, replacing any
previous binding). -/
def memInsert (k : List Nat) (v : StorageValue) (st : MemoryState) : MemoryState :=
  (k, v) :: memErase k st

/-- Model of `MemoryStorage::set` (src/storage/memory.rs lines 76-85):
replace the record, clearing any prior expiry. -/
def memSet (k v : List Nat) (st : MemoryState) : MemoryState :=
  memInsert k ⟨v, none⟩ st

/-- Model of `MemoryStorage::set_with_expiry` (lines 87-104): replace the
record with absolute expiry `now + ttl`
(`StorageValue::new_with_expiry`, traits.rs lines 24-29). -/
def memSetWithExpiry (now : Nat) (k v : List Nat) (ttl : Nat) (st : MemoryState) :
    MemoryState :=
  memInsert k ⟨v, some (now + ttl)⟩ st

/-- Model of `MemoryStorage::get` (lines 106-124): an expired record is
removed and reads as absent. -/
def memGet (now : Nat) (k : List Nat) (st : MemoryState) :
    Option (List Nat) × MemoryState :=
  match memLookup k st with
  | some entry =>
    if entry.isExpired now then (none, memErase k st) else (some entry.data, st)
  | none => (none, st)

/-- Model of `MemoryStorage::delete` (lines 126-134). -/
def memDelete (k : List Nat) (st : MemoryState) : Bool × MemoryState :=
  ((memLookup k st).isSome, memErase k st)

/-- Model of `MemoryStorage::exists` (lines 136-154): like `get` but
returning presence; an expired record is removed and reads as absent. -/
def memExists (now : Nat) (k : List Nat) (st : MemoryState) : Bool × MemoryState :=
  match memLookup k st with
  | some entry =>
    if entry.isExpired now then (false, memErase k st) else (true, st)
  | none => (false, st)

/-- Model of `MemoryStorage::cleanup_expired` (lines 51-71), the periodic
sweep: remove every currently expired entry. -/
def memCleanupExpired (now : Nat) (st : MemoryState) : MemoryState :=
  st.filter (fun e => !(e.2.isExpired now))

/-- A record as persisted by the LMDB backend
(`SerializableStorageValue`, src/storage/lmdb.rs lines 9-13): payload and
optional absolute expiry in milliseconds since the epoch. -/
structure LmdbRecord where
  data : List Nat
  expiresAt : Option Nat
  deriving DecidableEq

/-- The LMDB key-value store, one entry per key. -/
abbrev LmdbState := List (List Nat × LmdbRecord)

/-- Model of `LmdbStorage::keys_count` (src/storage/lmdb.rs lines
176-181): `env.stat().entries()`, the raw number of entries in the tree,
with no expiry filtering. -/
def lmdbKeysCount (st : LmdbState) : Nat := st.length

/-- Whether a persisted record is expired at the given instant. -/
def LmdbRecord.isExpired (now : Nat) (r : LmdbRecord) : Bool :=
  match r.expiresAt with
  | some e => decide (e < now)
  | none => false

/-- Modelled from the spec: `keys_count` must return the "Count of
non-expired records" (storage contract, section 4.5); stated separately so
it can be compared with the count the LMDB backend actually returns. -/
def lmdbNonExpiredCount (now : Nat) (st : LmdbState) : Nat :=
  (st.filter (fun e => !(e.2.isExpired now))).length

/-- Protocol version negotiated on a connection
(src/protocol/mod.rs lines 12-24); the default is RESP2. -/
inductive ProtocolVersion where
  | resp2
  | resp3
  deriving DecidableEq

/-- The HELLO response payload built by `Handler::handle_hello`
(src/server/handler.rs lines 581-608): a map under RESP3, a flat array of
alternating keys and values under RESP2. -/
def helloResponse : ProtocolVersion → RespValue
  | .resp3 =>
    .map (rvpOf
      [(.bulkString (some (ascii "server")), .bulkString (some (ascii "coral-redis"))),
       (.bulkString (some (ascii "version")), .bulkString (some (ascii "0.1.0"))),
       (.bulkString (some (ascii "proto")), .integer 3),
       (.bulkString (some (ascii "mode")), .bulkString (some (ascii "standalone"))),
       (.bulkString (some (ascii "role")), .bulkString (some (ascii "master")))])
  | .resp2 =>
    .array (some (rvlOf
      [.bulkString (some (ascii "server")), .bulkString (some (ascii "coral-redis")),
       .bulkString (some (ascii "version")), .bulkString (some (ascii "0.1.0")),
       .bulkString (some (ascii "proto")), .integer 2,
       .bulkString (some (ascii "mode")), .bulkString (some (ascii "standalone")),
       .bulkString (some (ascii "role")), .bulkString (some (ascii "master"))]))

/-- Model of `Handler::handle_hello` (src/server/handler.rs lines
558-609): parse the first argument with `str::parse::<u8>`, switch to
RESP2/RESP3 on 2/3, report unsupported u8 values, report a non-number on
parse failure, and leave the version unchanged unless the switch happened.
Returns the reply and the connection protocol version afterwards. -/
def handleHello (args : List RespValue) (pv : ProtocolVersion) :
    RespValue × ProtocolVersion :=
  match args with
  | [] => (helloResponse pv, pv)
  | a :: _ =>
    match a with
    | .bulkString (some verStr) =>
      match parseU8 verStr with
      | some v =>
        if v = 2 then (helloResponse .resp2, .resp2)
        else if v = 3 then (helloResponse .resp3, .resp3)
        else (.error (ascii "ERR unsupported protocol version: " ++ natToDigits v), pv)
      | none => (.error (ascii "ERR protocol version must be a number"), pv)
    | _ => (.error (ascii "ERR protocol version must be a string"), pv)

/-- Model of `Handler::handle_set` (src/server/handler.rs lines 254-316)
over the memory backend: fewer than two arguments or a non-bulk key or
value is an error touching nothing; a bulk `EX`-and-ttl pair at positions
2 and 3 triggers `set_with_expiry` (invalid ttl is an error touching
nothing); anything else falls through to a plain `set`. -/
def handleSet (now : Nat) (args : List RespValue) (st : MemoryState) :
    RespValue × MemoryState :=
  match args with
  | a0 :: a1 :: rest =>
    match a0 with
    | .bulkString (some k) =>
      match a1 with
      | .bulkString (some v) =>
        match rest with
        | .bulkString (some opt) :: .bulkString (some ttlStr) :: _ =>
          if eqIgnoreAsciiCase opt (ascii "EX") then
            match parseU64 ttlStr with
            | some ttl =>
              (.simpleString (ascii "OK"), memSetWithExpiry now k v ttl st)
            | none => (.error (ascii "Invalid TTL"), st)
          else (.simpleString (ascii "OK"), memSet k v st)
        | _ => (.simpleString (ascii "OK"), memSet k v st)
      | _ => (.error (ascii "Invalid value"), st)
    | _ => (.error (ascii "Invalid key"), st)
  | _ => (.error (ascii "Wrong number of arguments for SET"), st)

/-- The deletion loop of `Handler::handle_del` (lines 357-385): non-bulk
arguments are skipped with a warning; each bulk key is deleted and counted
if it existed. -/
def handleDelLoop : List RespValue → MemoryState → Nat → Nat × MemoryState
  | [], st, c => (c, st)
  | a :: rest, st, c =>
    match a with
    | .bulkString (some k) =>
      let r := memDelete k st
      handleDelLoop rest r.2 (if r.1 then c + 1 else c)
    | _ => handleDelLoop rest st c

/-- Model of `Handler::handle_del` (src/server/handler.rs lines 350-388). -/
def handleDel (args : List RespValue) (st : MemoryState) :
    RespValue × MemoryState :=
  if args.isEmpty then (.error (ascii "Wrong number of arguments for DEL"), st)
  else
    let r := handleDelLoop args st 0
    (.integer (r.1 : Int), r.2)

/-- The existence loop of `Handler::handle_exists` (lines 395-412):
non-bulk arguments are skipped; each occurrence of a present key counts. -/
def handleExistsLoop (now : Nat) :
    List RespValue → MemoryState → Nat → Nat × MemoryState
  | [], st, c => (c, st)
  | a :: rest, st, c =>
    match a with
    | .bulkString (some k) =>
      let r := memExists now k st
      handleExistsLoop now rest r.2 (if r.1 then c + 1 else c)
    | _ => handleExistsLoop now rest st c

/-- Model of `Handler::handle_exists` (src/server/handler.rs lines
390-415). -/
def handleExists (now : Nat) (args : List RespValue) (st : MemoryState) :
    RespValue × MemoryState :=
  if args.isEmpty then (.error (ascii "Wrong number of arguments for EXISTS"), st)
  else
    let r := handleExistsLoop now args st 0
    (.integer (r.1 : Int), r.2)

/-- Outcome of one iteration of the inner drain loop of
`Handler::handle_stream` (src/server/handler.rs lines 81-115). No
constructor closes the session: the loop only ends the connection when the
socket read returns zero bytes or an I/O write fails. -/
inductive DrainResult where
  | dispatched (v : RespValue) (buf : List Nat)
  | needMore (buf : List Nat)
  | protocolError (response : RespValue) (buf : List Nat)

/-- One iteration of the drain loop: a parsed frame is dispatched, an
incomplete parse waits for more bytes, and a parse error produces the
`ERR Protocol error:` reply followed by `parser.reset()`, which clears
the residual buffer (resp.rs lines 93-97), keeping the session alive. -/
def drainStep (buf : List Nat) : DrainResult :=
  match RespParser.parse buf with
  | (.ok (some v), rest) => .dispatched v rest
  | (.ok none, rest) => .needMore rest
  | (.error e, _) => .protocolError (.error (ascii "ERR Protocol error: " ++ e)) []

theorem natToDigitsAux_range (fuel : Nat) :
    ∀ n d, d ∈ natToDigitsAux fuel n → 48 ≤ d ∧ d ≤ 57 := by
  induction fuel with
  | zero => intro n d hd; simp [natToDigitsAux] at hd
  | succ fuel ih =>
    intro n d hd
    by_cases h : n < 10
    · simp [natToDigitsAux, h] at hd
      omega
    · simp [natToDigitsAux, h] at hd
      rcases hd with hd | hd
      · exact ih _ _ hd
      · have : n % 10 < 10 := Nat.mod_lt _ (by omega)
        omega

theorem natToDigits_range (n d : Nat) (hd : d ∈ natToDigits n) : 48 ≤ d ∧ d ≤ 57 :=
  natToDigitsAux_range _ _ _ hd

theorem natToDigits_ne_nil (n : Nat) : natToDigits n ≠ [] := by
  unfold natToDigits natToDigitsAux
  by_cases h : n < 10 <;> simp [h]

theorem digitsVal_natToDigitsAux (fuel : Nat) :
    ∀ n acc, n < fuel →
      (natToDigitsAux fuel n).foldl (fun a d => a * 10 + (d - 48)) acc
        = acc * 10 ^ (natToDigitsAux fuel n).length + n := by
  induction fuel with
  | zero => intro n acc h; omega
  | succ fuel ih =>
    intro n acc h
    by_cases h10 : n < 10
    · simp [natToDigitsAux, h10]
    · have hrec : n / 10 < fuel := by
        have := Nat.div_lt_self (by omega : 0 < n) (by omega : 1 < 10)
        omega
      have hmod : n % 10 < 10 := Nat.mod_lt _ (by omega)
      have hdm := Nat.div_add_mod n 10
      simp only [natToDigitsAux, h10, if_false, List.foldl_append, List.foldl_cons,
        List.foldl_nil, List.length_append, List.length_cons, List.length_nil]
      rw [ih _ acc hrec]
      have : 48 + n % 10 - 48 = n % 10 := by omega
      rw [this, pow_succ]
      ring_nf
      omega

theorem digitsVal_natToDigits (n : Nat) : digitsVal (natToDigits n) = n := by
  have := digitsVal_natToDigitsAux (n + 1) n 0 (by omega)
  simpa [digitsVal, natToDigits] using this

theorem natToDigits_all_digits (n : Nat) : (natToDigits n).all isDigitB = true := by
  rw [List.all_eq_true]
  intro d hd
  have := natToDigits_range n d hd
  simp [isDigitB]
  omega

theorem natToDigits_head_digit (n : Nat) :
    ∃ d rest, natToDigits n = d :: rest ∧ 48 ≤ d ∧ d ≤ 57 := by
  cases hl : natToDigits n with
  | nil => exact absurd hl (natToDigits_ne_nil n)
  | cons d rest =>
    refine ⟨d, rest, rfl, ?_⟩
    exact natToDigits_range n d (by rw [hl]; exact List.mem_cons_self _ _)

theorem parseUDec_natToDigits (limit n : Nat) (h : n ≤ limit) :
    parseUDec limit (natToDigits n) = some n := by
  obtain ⟨d, rest, hl, hd1, hd2⟩ := natToDigits_head_digit n
  unfold parseUDec
  rw [hl]
  have hne : ¬ ((d :: rest).head? = some 43) := by simp; omega
  simp only [hne, if_false]
  rw [← hl]
  simp [natToDigits_ne_nil n, natToDigits_all_digits n, digitsVal_natToDigits n, h,
    List.isEmpty_iff]

theorem parseI64_natToDigits (n : Nat) (h : n < 2 ^ 63) :
    parseI64 (natToDigits n) = some (n : Int) := by
  obtain ⟨d, rest, hl, hd1, hd2⟩ := natToDigits_head_digit n
  unfold parseI64
  have hne : ¬ ((natToDigits n).head? = some 45) := by simp [hl]; omega
  simp only [hne, if_false]
  rw [parseUDec_natToDigits _ n (by omega)]

theorem parseI64_intToBytes (i : Int) (h1 : -(2 ^ 63) ≤ i) (h2 : i < 2 ^ 63) :
    parseI64 (intToBytes i) = some i := by
  by_cases hneg : i < 0
  · have hbytes : intToBytes i = 45 :: natToDigits i.natAbs := by
      unfold intToBytes
      simp [hneg]
    rw [hbytes]
    unfold parseI64
    simp only [List.head?_cons, List.tail_cons]
    rw [if_pos trivial]
    rw [if_neg (by simp [List.isEmpty_iff, natToDigits_ne_nil i.natAbs])]
    rw [if_pos (natToDigits_all_digits i.natAbs)]
    rw [digitsVal_natToDigits]
    rw [if_pos (by omega : i.natAbs ≤ 2 ^ 63)]
    simp only [Option.some.injEq]
    omega
  · have habs : (i.natAbs : Int) = i := by omega
    unfold intToBytes
    simp only [hneg, if_false]
    rw [parseI64_natToDigits i.natAbs (by omega)]
    rw [habs]

theorem intToBytes_mem (i : Int) (d : Nat) (hd : d ∈ intToBytes i) :
    d = 45 ∨ (48 ≤ d ∧ d ≤ 57) := by
  unfold intToBytes at hd
  by_cases hneg : i < 0
  · simp only [hneg, if_true, List.mem_cons] at hd
    rcases hd with hd | hd
    · exact Or.inl hd
    · exact Or.inr (natToDigits_range _ _ hd)
  · simp only [hneg, if_false] at hd
    exact Or.inr (natToDigits_range _ _ hd)

theorem findCrlf_none_of_no13 (l : List Nat) (h : ∀ b ∈ l, b ≠ 13) :
    findCrlf l = none := by
  induction l with
  | nil => rfl
  | cons a t ih =>
    cases t with
    | nil => rfl
    | cons b t2 =>
      have ha : a ≠ 13 := h a (List.mem_cons_self _ _)
      have hrec := ih (fun x hx => h x (List.mem_cons_of_mem _ hx))
      simp [findCrlf, ha, hrec]

theorem findCrlf_append_crlf (s : List Nat) (hs : findCrlf s = none) (r : List Nat) :
    findCrlf (s ++ 13 :: 10 :: r) = some s.length := by
  induction s with
  | nil => simp [findCrlf]
  | cons a t ih =>
    cases t with
    | nil =>
      simp only [List.nil_append, List.cons_append]
      show findCrlf (a :: 13 :: 10 :: r) = some 1
      by_cases ha : a = 13
      · subst ha
        simp [findCrlf]
      · simp [findCrlf, ha]
    | cons b t2 =>
      have hcond : ¬ (a = 13 ∧ b = 10) := by
        intro hab
        simp [findCrlf, hab] at hs
      have htail : findCrlf (b :: t2) = none := by
        simp only [findCrlf, hcond, if_false, Option.map_eq_none'] at hs
        exact hs
      have h2 := ih htail
      simp only [List.cons_append] at h2 ⊢
      simp only [findCrlf, hcond, if_false]
      rw [h2]
      simp

theorem utf8Valid_of_le127 (l : List Nat) (h : ∀ b ∈ l, b ≤ 127) :
    utf8Valid l = true := by
  induction l with
  | nil => rfl
  | cons b t ih =>
    have hb : b ≤ 127 := h b (List.mem_cons_self _ _)
    have ht := ih (fun x hx => h x (List.mem_cons_of_mem _ hx))
    unfold utf8Valid at ht ⊢
    rw [utf8Aux, if_pos hb]
    exact ht

theorem utf8Valid_natToDigits (n : Nat) : utf8Valid (natToDigits n) = true := by
  apply utf8Valid_of_le127
  intro b hb
  have := natToDigits_range n b hb
  omega

theorem findCrlf_natToDigits (n : Nat) : findCrlf (natToDigits n) = none := by
  apply findCrlf_none_of_no13
  intro b hb
  have := natToDigits_range n b hb
  omega

theorem utf8Valid_intToBytes (i : Int) : utf8Valid (intToBytes i) = true := by
  apply utf8Valid_of_le127
  intro b hb
  rcases intToBytes_mem i b hb with h | h <;> omega

theorem findCrlf_intToBytes (i : Int) : findCrlf (intToBytes i) = none := by
  apply findCrlf_none_of_no13
  intro b hb
  rcases intToBytes_mem i b hb with h | h <;> omega

theorem readLine_append (s r : List Nat) (hcr : findCrlf s = none)
    (hu : utf8Valid s = true) : readLine (s ++ 13 :: 10 :: r) = .line s r := by
  unfold readLine
  rw [findCrlf_append_crlf s hcr r]
  have htake : (s ++ 13 :: 10 :: r).take s.length = s := by
    exact List.take_left s (13 :: 10 :: r)
  have hdrop : (s ++ 13 :: 10 :: r).drop (s.length + 2) = r := by
    have : s ++ 13 :: 10 :: r = (s ++ [13, 10]) ++ r := by simp
    rw [this]
    have hlen : (s ++ [13, 10]).length = s.length + 2 := by simp
    rw [← hlen]
    exact List.drop_left _ _
  simp only [htake, hdrop, hu, if_true]

theorem rvlInductionOn {P : RVList → Prop} (hnil : P .nil)
    (hcons : ∀ v t, P t → P (.cons v t)) : ∀ l, P l :=
  fun l =>
    @RVList.rec (fun _ => True) P (fun _ => True) (fun _ => True)
      (fun _ => trivial) (fun _ => trivial) (fun _ => trivial) (fun _ => trivial)
      (fun _ _ => trivial) trivial (fun _ => trivial) (fun _ => trivial)
      (fun _ _ => trivial) (fun _ _ => trivial)
      hnil (fun h t _ ih => hcons h t ih)
      trivial (fun _ _ _ _ _ _ => trivial)
      trivial (fun _ _ => trivial) l

theorem rvpInductionOn {P : RVPairs → Prop} (hnil : P .nil)
    (hcons : ∀ k v t, P t → P (.cons k v t)) : ∀ ps, P ps :=
  fun ps =>
    @RVPairs.rec (fun _ => True) (fun _ => True) P (fun _ => True)
      (fun _ => trivial) (fun _ => trivial) (fun _ => trivial) (fun _ => trivial)
      (fun _ _ => trivial) trivial (fun _ => trivial) (fun _ => trivial)
      (fun _ _ => trivial) (fun _ _ => trivial)
      trivial (fun _ _ _ _ => trivial)
      hnil (fun k v t _ _ ih => hcons k v t ih)
      trivial (fun _ _ => trivial) ps

theorem RespValue.size_pos : ∀ v : RespValue, 1 ≤ v.size := by
  intro v
  cases v with
  | bulkString s => cases s <;> simp [RespValue.size]
  | array a => cases a <;> simp [RespValue.size]
  | boolean b => cases b <;> simp [RespValue.size]
  | _ => simp [RespValue.size]

theorem rvlMemSizeLe (l : RVList) :
    ∀ v, RVList.Mem v l → RespValue.size v ≤ RVList.size l := by
  induction l using rvlInductionOn with
  | hnil => intro v hv; exact absurd hv id
  | hcons h t ih =>
    intro v hv
    rcases hv with hv | hv
    · subst hv
      simp [RVList.size]
    · have := ih v hv
      simp [RVList.size]
      omega

theorem rvlMemToBytesLe (l : RVList) :
    ∀ v, RVList.Mem v l →
      (RespValue.toBytes v).length ≤ (RVList.toBytes l).length := by
  induction l using rvlInductionOn with
  | hnil => intro v hv; exact absurd hv id
  | hcons h t ih =>
    intro v hv
    rcases hv with hv | hv
    · subst hv
      simp [RVList.toBytes]
    · have := ih v hv
      simp [RVList.toBytes]
      omega

theorem rvlWfbMem (l : RVList) (hl : RVList.wfb l = true) :
    ∀ v, RVList.Mem v l → RespValue.wfb v = true := by
  induction l using rvlInductionOn with
  | hnil => intro v hv; exact absurd hv id
  | hcons h t ih =>
    intro v hv
    simp only [RVList.wfb, Bool.and_eq_true] at hl
    rcases hv with hv | hv
    · subst hv; exact hl.1
    · exact ih hl.2 v hv

theorem rvpMemSizeLe (ps : RVPairs) :
    ∀ kv, RVPairs.Mem kv ps →
      RespValue.size kv.1 + RespValue.size kv.2 ≤ RVPairs.size ps := by
  induction ps using rvpInductionOn with
  | hnil => intro kv hkv; exact absurd hkv id
  | hcons k v t ih =>
    intro kv hkv
    rcases hkv with hkv | hkv
    · subst hkv
      simp [RVPairs.size]
    · have := ih kv hkv
      simp [RVPairs.size]
      omega

theorem rvpMemToBytesLe (ps : RVPairs) :
    ∀ kv, RVPairs.Mem kv ps →
      (RespValue.toBytes kv.1).length ≤ (RVPairs.toBytes ps).length ∧
      (RespValue.toBytes kv.2).length ≤ (RVPairs.toBytes ps).length := by
  induction ps using rvpInductionOn with
  | hnil => intro kv hkv; exact absurd hkv id
  | hcons k v t ih =>
    intro kv hkv
    rcases hkv with hkv | hkv
    · subst hkv
      simp [RVPairs.toBytes]
      omega
    · have := ih kv hkv
      simp [RVPairs.toBytes]
      omega

theorem rvpWfbMem (ps : RVPairs) (hp : RVPairs.wfb ps = true) :
    ∀ kv, RVPairs.Mem kv ps →
      RespValue.wfb kv.1 = true ∧ RespValue.wfb kv.2 = true := by
  induction ps using rvpInductionOn with
  | hnil => intro kv hkv; exact absurd hkv id
  | hcons k v t ih =>
    intro kv hkv
    simp only [RVPairs.wfb, Bool.and_eq_true] at hp
    rcases hkv with hkv | hkv
    · subst hkv; exact ⟨hp.1.1, hp.1.2⟩
    · exact ih hp.2 kv hkv

theorem toBytes_head (v : RespValue) :
    ∃ t rest, RespValue.toBytes v = t :: rest ∧ isRespTypeByte t = true := by
  cases v with
  | simpleString s => exact ⟨43, _, rfl, by decide⟩
  | error e => exact ⟨45, _, rfl, by decide⟩
  | integer i => exact ⟨58, _, rfl, by decide⟩
  | bulkString s =>
    cases s with
    | none => exact ⟨36, _, rfl, by decide⟩
    | some s => exact ⟨36, _, rfl, by decide⟩
  | array a =>
    cases a with
    | none => exact ⟨42, _, rfl, by decide⟩
    | some l => exact ⟨42, _, rfl, by decide⟩
  | null => exact ⟨95, _, rfl, by decide⟩
  | boolean b => cases b with
    | true => exact ⟨35, _, rfl, by decide⟩
    | false => exact ⟨35, _, rfl, by decide⟩
  | double d => exact ⟨44, _, rfl, by decide⟩
  | set l => exact ⟨126, _, rfl, by decide⟩
  | map ps => exact ⟨37, _, rfl, by decide⟩

theorem toBytes_ne_nil (v : RespValue) : RespValue.toBytes v ≠ [] := by
  obtain ⟨t, rest, h, _⟩ := toBytes_head v
  simp [h]

/-- The round-trip property of a single value: its encoding followed by any
residual parses back to exactly the value, leaving the residual, for any
sufficient fuel. -/
def RT (v : RespValue) : Prop :=
  ∀ r fuel, (RespValue.toBytes v).length ≤ fuel →
    parseValueF (fuel + 1) (RespValue.toBytes v ++ r) = .val v r

theorem parseElemsF_encode (l : RVList) :
    ∀ fuel : Nat,
      (∀ v, RVList.Mem v l → RT v ∧ (RespValue.toBytes v).length + 1 ≤ fuel) →
      ∀ r, parseElemsF (parseValueF fuel) (RVList.length l) (RVList.toBytes l ++ r)
        = .done l r := by
  induction l using rvlInductionOn with
  | hnil =>
    intro fuel h r
    simp [RVList.length, RVList.toBytes, parseElemsF]
  | hcons v t ih =>
    intro fuel h r
    obtain ⟨hrt, hfuel⟩ := h v (Or.inl rfl)
    cases fuel with
    | zero => omega
    | succ f =>
      have h1 : parseValueF (f + 1) (RespValue.toBytes v ++ (RVList.toBytes t ++ r))
          = .val v (RVList.toBytes t ++ r) := hrt _ f (by omega)
      have h2 : parseElemsF (parseValueF (f + 1)) (RVList.length t)
          (RVList.toBytes t ++ r) = .done t r :=
        ih (f + 1) (fun v2 hv2 => h v2 (Or.inr hv2)) r
      simp [RVList.length, RVList.toBytes, parseElemsF, h1, h2]

theorem parsePairsF_encode (ps : RVPairs) :
    ∀ fuel : Nat,
      (∀ kv, RVPairs.Mem kv ps →
        (RT kv.1 ∧ RT kv.2) ∧ (RespValue.toBytes kv.1).length + 1 ≤ fuel ∧
          (RespValue.toBytes kv.2).length + 1 ≤ fuel) →
      ∀ r, parsePairsF (parseValueF fuel) (RVPairs.length ps) (RVPairs.toBytes ps ++ r)
        = .done ps r := by
  induction ps using rvpInductionOn with
  | hnil =>
    intro fuel h r
    simp [RVPairs.length, RVPairs.toBytes, parsePairsF]
  | hcons k v t ih =>
    intro fuel h r
    obtain ⟨⟨hrtk, hrtv⟩, hfk, hfv⟩ := h (k, v) (Or.inl rfl)
    cases fuel with
    | zero => omega
    | succ f =>
      have h1 : parseValueF (f + 1)
          (RespValue.toBytes k ++ (RespValue.toBytes v ++ (RVPairs.toBytes t ++ r)))
          = .val k (RespValue.toBytes v ++ (RVPairs.toBytes t ++ r)) := hrtk _ f (by omega)
      have h2 : parseValueF (f + 1) (RespValue.toBytes v ++ (RVPairs.toBytes t ++ r))
          = .val v (RVPairs.toBytes t ++ r) := hrtv _ f (by omega)
      have h3 : parsePairsF (parseValueF (f + 1)) (RVPairs.length t)
          (RVPairs.toBytes t ++ r) = .done t r :=
        ih (f + 1) (fun kv2 hkv2 => h kv2 (Or.inr hkv2)) r
      simp [RVPairs.length, RVPairs.toBytes, parsePairsF, h1, h2, h3]

theorem parseValueF_encode :
    ∀ N v, RespValue.size v ≤ N → RespValue.wfb v = true → RT v := by
  intro N
  induction N with
  | zero =>
    intro v hs _
    have := RespValue.size_pos v
    omega
  | succ N ih =>
    intro v hs hw r fuel hf
    cases v with
    | simpleString s =>
      simp only [RespValue.wfb, Bool.and_eq_true, Option.isNone_iff_eq_none] at hw
      have hb : RespValue.toBytes (.simpleString s) ++ r = 43 :: (s ++ 13 :: 10 :: r) := by
        simp [RespValue.toBytes, crlf]
      rw [hb]
      simp [parseValueF, parseSimpleString, readLine_append s r hw.1 hw.2]
    | error e =>
      simp only [RespValue.wfb, Bool.and_eq_true, Option.isNone_iff_eq_none] at hw
      have hb : RespValue.toBytes (.error e) ++ r = 45 :: (e ++ 13 :: 10 :: r) := by
        simp [RespValue.toBytes, crlf]
      rw [hb]
      simp [parseValueF, parseErrorFrame, readLine_append e r hw.1 hw.2]
    | integer i =>
      simp only [RespValue.wfb, Bool.and_eq_true, decide_eq_true_eq] at hw
      have hb : RespValue.toBytes (.integer i) ++ r = 58 :: (intToBytes i ++ 13 :: 10 :: r) := by
        simp [RespValue.toBytes, crlf]
      rw [hb]
      simp [parseValueF, parseIntegerFrame,
        readLine_append _ r (findCrlf_intToBytes i) (utf8Valid_intToBytes i),
        parseI64_intToBytes i hw.1 hw.2]
    | bulkString s =>
      cases s with
      | none =>
        have hb : RespValue.toBytes (.bulkString none) ++ r
            = 36 :: ([45, 49] ++ 13 :: 10 :: r) := by
          simp [RespValue.toBytes, crlf]
        rw [hb]
        have hline : readLine (45 :: 49 :: 13 :: 10 :: r) = .line [45, 49] r :=
          readLine_append [45, 49] r (by decide) (by decide)
        have hp : parseI64 [45, 49] = some (-1) := by decide
        simp [parseValueF, parseBulkString, hline, hp]
      | some s =>
        simp only [RespValue.wfb, Bool.and_eq_true, decide_eq_true_eq] at hw
        have hb : RespValue.toBytes (.bulkString (some s)) ++ r
            = 36 :: (natToDigits s.length ++ 13 :: 10 :: (s ++ 13 :: 10 :: r)) := by
          simp [RespValue.toBytes, crlf]
        rw [hb]
        have hline : readLine (natToDigits s.length ++ 13 :: 10 :: (s ++ 13 :: 10 :: r))
            = .line (natToDigits s.length) (s ++ 13 :: 10 :: r) :=
          readLine_append _ _ (findCrlf_natToDigits _) (utf8Valid_natToDigits _)
        have hp : parseI64 (natToDigits s.length) = some (s.length : Int) :=
          parseI64_natToDigits _ hw.2
        have hne1 : ¬ ((s.length : Int) = -1) := by omega
        have hne2 : ¬ ((s.length : Int) < 0) := by omega
        have hlen : ¬ ((s ++ 13 :: 10 :: r).length < (s.length : Int).toNat + 2) := by
          simp [List.length_append]
        have htake : (s ++ 13 :: 10 :: r).take (s.length : Int).toNat = s := by
          simp [List.take_left]
        have hdrop : (s ++ 13 :: 10 :: r).drop (s.length : Int).toNat = 13 :: 10 :: r := by
          simp [List.drop_left]
        simp [parseValueF, parseBulkString, hline, hp, hne1, hne2, hlen, htake, hdrop,
          hw.1, crlf]
    | array a =>
      cases a with
      | none =>
        have hb : RespValue.toBytes (.array none) ++ r
            = 42 :: ([45, 49] ++ 13 :: 10 :: r) := by
          simp [RespValue.toBytes, crlf]
        rw [hb]
        have hline : readLine (45 :: 49 :: 13 :: 10 :: r) = .line [45, 49] r :=
          readLine_append [45, 49] r (by decide) (by decide)
        have hp : parseI64 [45, 49] = some (-1) := by decide
        simp [parseValueF, parseArrayFrame, hline, hp]
      | some l =>
        simp only [RespValue.wfb, Bool.and_eq_true, decide_eq_true_eq] at hw
        have hb : RespValue.toBytes (.array (some l)) ++ r
            = 42 :: (natToDigits (RVList.length l) ++ 13 :: 10 :: (RVList.toBytes l ++ r)) := by
          simp [RespValue.toBytes, crlf]
        have hsz : RVList.size l ≤ N := by
          have : RespValue.size (.array (some l)) = RVList.size l + 1 := by
            simp [RespValue.size]
          omega
        have hdig : 1 ≤ (natToDigits (RVList.length l)).length :=
          List.length_pos.mpr (natToDigits_ne_nil _)
        have hlenb : (RespValue.toBytes (.array (some l))).length
            = 1 + (natToDigits (RVList.length l)).length + 2 + (RVList.toBytes l).length := by
          simp [RespValue.toBytes, crlf]
          omega
        have helems : parseElemsF (parseValueF fuel) (RVList.length l)
            (RVList.toBytes l ++ r) = .done l r := by
          apply parseElemsF_encode l fuel
          intro v hv
          refine ⟨ih v ?_ (rvlWfbMem l hw.2 v hv), ?_⟩
          · have := rvlMemSizeLe l v hv
            omega
          · have := rvlMemToBytesLe l v hv
            omega
        rw [hb]
        have hline : readLine (natToDigits (RVList.length l) ++ 13 :: 10 :: (RVList.toBytes l ++ r))
            = .line (natToDigits (RVList.length l)) (RVList.toBytes l ++ r) :=
          readLine_append _ _ (findCrlf_natToDigits _) (utf8Valid_natToDigits _)
        have hp : parseI64 (natToDigits (RVList.length l)) = some (RVList.length l : Int) :=
          parseI64_natToDigits _ hw.1
        have hne1 : ¬ ((RVList.length l : Int) = -1) := by omega
        have hne2 : ¬ ((RVList.length l : Int) < 0) := by omega
        simp [parseValueF, parseArrayFrame, hline, hp, hne1, hne2, helems]
    | null =>
      have hb : RespValue.toBytes .null ++ r = 95 :: (13 :: 10 :: r) := by
        simp [RespValue.toBytes, crlf]
      rw [hb]
      simp [parseValueF, parseNullFrame, crlf]
    | boolean b =>
      cases b with
      | true =>
        have hb : RespValue.toBytes (.boolean true) ++ r = 35 :: (116 :: 13 :: 10 :: r) := by
          simp [RespValue.toBytes, crlf]
        rw [hb]
        simp [parseValueF, parseBooleanFrame]
      | false =>
        have hb : RespValue.toBytes (.boolean false) ++ r = 35 :: (102 :: 13 :: 10 :: r) := by
          simp [RespValue.toBytes, crlf]
        rw [hb]
        simp [parseValueF, parseBooleanFrame]
    | double d =>
      simp [RespValue.wfb] at hw
    | set l =>
      simp only [RespValue.wfb, Bool.and_eq_true, decide_eq_true_eq] at hw
      have hb : RespValue.toBytes (.set l) ++ r
          = 126 :: (natToDigits (RVList.length l) ++ 13 :: 10 :: (RVList.toBytes l ++ r)) := by
        simp [RespValue.toBytes, crlf]
      have hsz : RVList.size l ≤ N := by
        have : RespValue.size (.set l) = RVList.size l + 1 := by
          simp [RespValue.size]
        omega
      have hdig : 1 ≤ (natToDigits (RVList.length l)).length :=
        List.length_pos.mpr (natToDigits_ne_nil _)
      have hlenb : (RespValue.toBytes (.set l)).length
          = 1 + (natToDigits (RVList.length l)).length + 2 + (RVList.toBytes l).length := by
        simp [RespValue.toBytes, crlf]
        omega
      have helems : parseElemsF (parseValueF fuel) (RVList.length l)
          (RVList.toBytes l ++ r) = .done l r := by
        apply parseElemsF_encode l fuel
        intro v hv
        refine ⟨ih v ?_ (rvlWfbMem l hw.2 v hv), ?_⟩
        · have := rvlMemSizeLe l v hv
          omega
        · have := rvlMemToBytesLe l v hv
          omega
      rw [hb]
      have hline : readLine (natToDigits (RVList.length l) ++ 13 :: 10 :: (RVList.toBytes l ++ r))
          = .line (natToDigits (RVList.length l)) (RVList.toBytes l ++ r) :=
        readLine_append _ _ (findCrlf_natToDigits _) (utf8Valid_natToDigits _)
      have hp : parseI64 (natToDigits (RVList.length l)) = some (RVList.length l : Int) :=
        parseI64_natToDigits _ hw.1
      have hne2 : ¬ ((RVList.length l : Int) < 0) := by omega
      simp [parseValueF, parseSetFrame, hline, hp, hne2, helems]
    | map ps =>
      simp only [RespValue.wfb, Bool.and_eq_true, decide_eq_true_eq] at hw
      have hb : RespValue.toBytes (.map ps) ++ r
          = 37 :: (natToDigits (RVPairs.length ps) ++ 13 :: 10 :: (RVPairs.toBytes ps ++ r)) := by
        simp [RespValue.toBytes, crlf]
      have hsz : RVPairs.size ps ≤ N := by
        have : RespValue.size (.map ps) = RVPairs.size ps + 1 := by
          simp [RespValue.size]
        omega
      have hdig : 1 ≤ (natToDigits (RVPairs.length ps)).length :=
        List.length_pos.mpr (natToDigits_ne_nil _)
      have hlenb : (RespValue.toBytes (.map ps)).length
          = 1 + (natToDigits (RVPairs.length ps)).length + 2 + (RVPairs.toBytes ps).length := by
        simp [RespValue.toBytes, crlf]
        omega
      have hpairs : parsePairsF (parseValueF fuel) (RVPairs.length ps)
          (RVPairs.toBytes ps ++ r) = .done ps r := by
        apply parsePairsF_encode ps fuel
        intro kv hkv
        have hwkv := rvpWfbMem ps hw.2 kv hkv
        have hszkv := rvpMemSizeLe ps kv hkv
        have hbl := rvpMemToBytesLe ps kv hkv
        have hp1 := RespValue.size_pos kv.1
        have hp2 := RespValue.size_pos kv.2
        refine ⟨⟨ih kv.1 (by omega) hwkv.1, ih kv.2 (by omega) hwkv.2⟩, ?_, ?_⟩
        · omega
        · omega
      rw [hb]
      have hline : readLine (natToDigits (RVPairs.length ps) ++ 13 :: 10 :: (RVPairs.toBytes ps ++ r))
          = .line (natToDigits (RVPairs.length ps)) (RVPairs.toBytes ps ++ r) :=
        readLine_append _ _ (findCrlf_natToDigits _) (utf8Valid_natToDigits _)
      have hp : parseI64 (natToDigits (RVPairs.length ps)) = some (RVPairs.length ps : Int) :=
        parseI64_natToDigits _ hw.1
      have hne2 : ¬ ((RVPairs.length ps : Int) < 0) := by omega
      simp [parseValueF, parseMapFrame, hline, hp, hne2, hpairs]

/-- Feeding exactly one encoded well-formed frame to an empty parser
yields that frame back and an empty residual buffer. -/
theorem parse_toBytes (v : RespValue) (h : RespValue.wfb v = true) :
    RespParser.parse (RespValue.toBytes v) = (.ok (some v), []) := by
  have hrt := parseValueF_encode (RespValue.size v) v le_rfl h []
    (RespValue.toBytes v).length le_rfl
  rw [List.append_nil] at hrt
  obtain ⟨t, rest, htv, htb⟩ := toBytes_head v
  unfold RespParser.parse
  rw [if_neg (by simp [List.isEmpty_iff, toBytes_ne_nil v])]
  have hdet : detectFormat (RespValue.toBytes v) = some .resp := by
    rw [htv]
    simp [detectFormat, htb]
  rw [hdet, hrt]

theorem parseI64_intToBytes_neg (n : Int) (hn : n < 0) :
    parseI64 (intToBytes n) = if n.natAbs ≤ 2 ^ 63 then some n else none := by
  have hbytes : intToBytes n = 45 :: natToDigits n.natAbs := by
    unfold intToBytes
    simp [hn]
  rw [hbytes]
  unfold parseI64
  simp only [List.head?_cons, List.tail_cons]
  rw [if_pos trivial]
  rw [if_neg (by simp [List.isEmpty_iff, natToDigits_ne_nil n.natAbs])]
  rw [if_pos (natToDigits_all_digits n.natAbs)]
  rw [digitsVal_natToDigits]
  by_cases h : n.natAbs ≤ 2 ^ 63
  · rw [if_pos h, if_pos h]
    have : -(n.natAbs : Int) = n := by omega
    rw [this]
  · rw [if_neg h, if_neg h]

/-- C9: the exact inputs dollar-minus-one-CRLF and star-minus-one-CRLF
decode to the null bulk string and the null array, while a `$` or `*`
header carrying any negative length other than -1 (rendered in decimal) is
malformed: `parse` returns an error, not a frame and not incomplete. -/
theorem claim_C9 (n : Int) (hn : n < -1) :
    RespParser.parse (36 :: (intToBytes n ++ crlf))
      = (.error (ascii "Invalid bulk string length"), []) ∧
    RespParser.parse (42 :: (intToBytes n ++ crlf))
      = (.error (ascii "Invalid array length"), []) ∧
    RespParser.parse (ascii "$-1\r\n") = (.ok (some (.bulkString none)), []) ∧
    RespParser.parse (ascii "*-1\r\n") = (.ok (some (.array none)), []) := by
  have hline : readLine (intToBytes n ++ 13 :: 10 :: ([] : List Nat))
      = .line (intToBytes n) [] :=
    readLine_append _ _ (findCrlf_intToBytes n) (utf8Valid_intToBytes n)
  have hp := parseI64_intToBytes_neg n (by omega)
  have hne1 : ¬ (n = -1) := by omega
  have hlt : n < 0 := by omega
  refine ⟨?_, ?_, rfl, rfl⟩
  · unfold RespParser.parse
    rw [if_neg (by simp [List.isEmpty_iff])]
    simp only [detectFormat]
    rw [if_pos (by decide : isRespTypeByte 36 = true)]
    simp only [List.length_cons, parseValueF]
    rw [if_neg (by decide : ¬ ((36 : Nat) = 43)), if_neg (by decide : ¬ ((36 : Nat) = 45)),
      if_neg (by decide : ¬ ((36 : Nat) = 58)), if_pos trivial]
    simp only [parseBulkString, crlf] at hline ⊢
    simp only [hline]
    rw [hp]
    by_cases habs : n.natAbs ≤ 9223372036854775808
    · simp [habs, hne1, hlt]
    · simp [habs]
  · unfold RespParser.parse
    rw [if_neg (by simp [List.isEmpty_iff])]
    simp only [detectFormat]
    rw [if_pos (by decide : isRespTypeByte 42 = true)]
    simp only [List.length_cons, parseValueF]
    rw [if_neg (by decide : ¬ ((42 : Nat) = 43)), if_neg (by decide : ¬ ((42 : Nat) = 45)),
      if_neg (by decide : ¬ ((42 : Nat) = 58)), if_neg (by decide : ¬ ((42 : Nat) = 36)),
      if_pos trivial]
    simp only [parseArrayFrame, crlf] at hline ⊢
    simp only [hline]
    rw [hp]
    by_cases habs : n.natAbs ≤ 9223372036854775808
    · simp [habs, hne1, hlt]
    · simp [habs]

/-- C9 witness at the concrete length -2. -/
theorem claim_C9_witness :
    RespParser.parse (ascii "$-2\r\n") = (.error (ascii "Invalid bulk string length"), []) := by
  have h := (claim_C9 (-2) (by norm_num)).1
  have e : (36 :: (intToBytes (-2) ++ crlf)) = ascii "$-2\r\n" := by decide
  rw [e] at h
  exact h

/-- C1 (evaluation at the failing input): `parse` on the incomplete RESP
frame `+OK` reports incomplete but leaves the buffer as `OK` instead of
`+OK` — the `truncate(original_len)` restore cannot return bytes consumed
from the front — and after the remaining bytes of the frame plus an
encoded `:42` frame arrive, the next parse misreads the data as the
inline command `OK` (an array of one bulk string) instead of the simple
string `OK`. -/
theorem claim_C1 :
    RespParser.parse (ascii "+OK") = (.ok none, ascii "OK") ∧
    ascii "OK" ≠ ascii "+OK" ∧
    RespParser.parse (ascii "OK" ++ ascii "\r\n:42\r\n")
      = (.ok (some (.array (some (.cons (.bulkString (some (ascii "OK"))) .nil)))),
         ascii ":42\r\n") ∧
    RespValue.array (some (.cons (.bulkString (some (ascii "OK"))) .nil))
      ≠ RespValue.simpleString (ascii "OK") := by
  refine ⟨rfl, by decide, rfl, by simp⟩

/-- C2 (amended): every well-formed frame — string payloads valid UTF-8 as
Rust `String`s are, simple-string and error payloads free of CRLF,
integers within `i64`, vector lengths within `i64`, and no doubles —
round-trips through encode and parse; the empty bulk string encodes as
`$0 CRLF CRLF` and round-trips to an empty, non-null payload; the null
bulk string and null array round-trip and stay distinct from their empty
counterparts. -/
theorem claim_C2 (v : RespValue) (h : RespValue.wfb v = true) :
    RespParser.parse (RespValue.toBytes v) = (.ok (some v), []) ∧
    RespValue.toBytes (.bulkString (some [])) = ascii "$0\r\n\r\n" ∧
    RespParser.parse (ascii "$0\r\n\r\n") = (.ok (some (.bulkString (some []))), []) ∧
    RespParser.parse (ascii "$-1\r\n") = (.ok (some (.bulkString none)), []) ∧
    RespValue.bulkString none ≠ RespValue.bulkString (some []) ∧
    RespParser.parse (ascii "*-1\r\n") = (.ok (some (.array none)), []) ∧
    RespValue.array none ≠ RespValue.array (some .nil) :=
  ⟨parse_toBytes v h, rfl, rfl, rfl, by simp, rfl, by simp⟩

/-- C2 counterexample to the claim as stated: the simple string whose
payload contains a CRLF does not round-trip — parsing its encoding yields
the simple string `a` (with residual bytes), not the original frame. -/
theorem claim_C2_cex :
    RespParser.parse (RespValue.toBytes (.simpleString (ascii "a\r\nb")))
      = (.ok (some (.simpleString (ascii "a"))), ascii "b\r\n") ∧
    ascii "a" ≠ ascii "a\r\nb" :=
  ⟨rfl, by decide⟩

/-- C2 witness: a nested array frame round-trips. -/
theorem claim_C2_witness :
    RespValue.wfb
      (.array (some (.cons (.integer 42) (.cons (.bulkString (some (ascii "hi"))) .nil))))
      = true ∧
    RespParser.parse (RespValue.toBytes
      (.array (some (.cons (.integer 42) (.cons (.bulkString (some (ascii "hi"))) .nil)))))
      = (.ok (some (.array (some (.cons (.integer 42)
          (.cons (.bulkString (some (ascii "hi"))) .nil))))), []) :=
  ⟨by decide, (claim_C2 _ (by decide)).1⟩

/-- C4 (evaluation at the failing input): for an LMDB store holding one
record whose absolute expiry (5) is before the current instant (10),
`keys_count` returns the raw entry count 1, but the specified count of
non-expired records is 0; the backend has no sweep and `keys_count` never
filters, so the two never converge. -/
theorem claim_C4 :
    lmdbKeysCount [(ascii "k", ⟨ascii "v", some 5⟩)] = 1 ∧
    lmdbNonExpiredCount 10 [(ascii "k", ⟨ascii "v", some 5⟩)] = 0 ∧
    lmdbKeysCount [(ascii "k", ⟨ascii "v", some 5⟩)]
      ≠ lmdbNonExpiredCount 10 [(ascii "k", ⟨ascii "v", some 5⟩)] :=
  ⟨rfl, rfl, by decide⟩

/-- C7: whenever `parse` reports a malformed frame with detail `e`, one
iteration of the drain loop replies with the RESP error frame
`ERR Protocol error: <e>`, resets the codec buffer to empty, and does not
close the session (no `DrainResult` constructor ends it); after the
reset, feeding any well-formed frame yields exactly that frame. -/
theorem claim_C7 (buf e rest : List Nat) (v : RespValue)
    (hbuf : RespParser.parse buf = (.error e, rest)) (hv : RespValue.wfb v = true) :
    drainStep buf = .protocolError (.error (ascii "ERR Protocol error: " ++ e)) [] ∧
    RespParser.parse ([] ++ RespValue.toBytes v) = (.ok (some v), []) := by
  constructor
  · unfold drainStep
    rw [hbuf]
  · rw [List.nil_append]
    exact parse_toBytes v hv

/-- C7 witness: the malformed `$-5` frame triggers the protocol-error
reply and reset, after which an encoded `PING` simple string parses. -/
theorem claim_C7_witness :
    drainStep (ascii "$-5\r\n")
      = .protocolError
          (.error (ascii "ERR Protocol error: " ++ ascii "Invalid bulk string length")) [] ∧
    RespParser.parse ([] ++ RespValue.toBytes (.simpleString (ascii "PING")))
      = (.ok (some (.simpleString (ascii "PING"))), []) :=
  claim_C7 _ _ [] _ rfl (by decide)

/-- C10: wherever text enters the parser, invalid UTF-8 makes `parse`
return a malformed error and never a frame of raw bytes: a length-correct
bulk-string payload that is not valid UTF-8, a CRLF-terminated simple
string line that is not valid UTF-8, and an inline command line that is
not valid UTF-8 are each rejected with the corresponding UTF-8 error. -/
theorem claim_C10 (p l il : List Nat) (b : Nat)
    (hpu : utf8Valid p = false) (hpl : p.length < 2 ^ 63)
    (hlc : findCrlf l = none) (hlu : utf8Valid l = false)
    (hb : isRespTypeByte b = false) (hic : findCrlf (b :: il) = none)
    (hiu : utf8Valid (b :: il) = false) :
    RespParser.parse (36 :: (natToDigits p.length ++ crlf ++ p ++ crlf))
      = (.error (ascii "Invalid UTF-8"), crlf) ∧
    RespParser.parse (43 :: (l ++ crlf))
      = (.error (ascii "Invalid UTF-8"), []) ∧
    RespParser.parse ((b :: il) ++ crlf)
      = (.error (ascii "Invalid UTF-8 in inline command"), (b :: il) ++ crlf) := by
  refine ⟨?_, ?_, ?_⟩
  · have hline : readLine (natToDigits p.length ++ 13 :: 10 :: (p ++ 13 :: 10 :: []))
        = .line (natToDigits p.length) (p ++ 13 :: 10 :: []) :=
      readLine_append _ _ (findCrlf_natToDigits _) (utf8Valid_natToDigits _)
    have hp : parseI64 (natToDigits p.length) = some (p.length : Int) :=
      parseI64_natToDigits _ hpl
    have hshape : 36 :: (natToDigits p.length ++ crlf ++ p ++ crlf)
        = 36 :: (natToDigits p.length ++ 13 :: 10 :: (p ++ 13 :: 10 :: [])) := by
      simp [crlf]
    rw [hshape]
    unfold RespParser.parse
    rw [if_neg (by simp [List.isEmpty_iff])]
    simp only [detectFormat]
    rw [if_pos (by decide : isRespTypeByte 36 = true)]
    simp only [List.length_cons, parseValueF]
    rw [if_neg (by decide : ¬ ((36 : Nat) = 43)), if_neg (by decide : ¬ ((36 : Nat) = 45)),
      if_neg (by decide : ¬ ((36 : Nat) = 58)), if_pos trivial]
    simp only [parseBulkString]
    simp only [hline]
    rw [hp]
    have hne1 : ¬ ((p.length : Int) = -1) := by omega
    have hne2 : ¬ ((p.length : Int) < 0) := by omega
    have hlen : ¬ ((p ++ 13 :: 10 :: []).length < (p.length : Int).toNat + 2) := by
      simp [List.length_append]
    have htake : (p ++ 13 :: 10 :: []).take (p.length : Int).toNat = p := by
      simp [List.take_left]
    have hdrop : (p ++ 13 :: 10 :: []).drop (p.length : Int).toNat = 13 :: 10 :: [] := by
      simp [List.drop_left]
    simp [hne1, hne2, hlen, htake, hdrop, hpu, crlf]
  · have hline : readLine (l ++ 13 :: 10 :: []) = .bad (ascii "Invalid UTF-8") [] := by
      unfold readLine
      rw [findCrlf_append_crlf l hlc]
      have htake : (l ++ 13 :: 10 :: []).take l.length = l := List.take_left _ _
      have hdrop : (l ++ 13 :: 10 :: []).drop (l.length + 2) = [] := by
        have : l ++ 13 :: 10 :: [] = (l ++ [13, 10]) ++ [] := by simp
        rw [this]
        have hlen2 : (l ++ [13, 10]).length = l.length + 2 := by simp
        rw [← hlen2]
        exact List.drop_left _ _
      simp only [htake, hdrop, hlu]
      simp
    have hshape : 43 :: (l ++ crlf) = 43 :: (l ++ 13 :: 10 :: []) := by simp [crlf]
    rw [hshape]
    unfold RespParser.parse
    rw [if_neg (by simp [List.isEmpty_iff])]
    simp only [detectFormat]
    rw [if_pos (by decide : isRespTypeByte 43 = true)]
    simp only [List.length_cons, parseValueF]
    rw [if_pos trivial]
    simp only [parseSimpleString]
    simp only [hline]
  · have hfind : findCrlf ((b :: il) ++ 13 :: 10 :: []) = some (b :: il).length :=
      findCrlf_append_crlf _ hic _
    have htake : ((b :: il) ++ 13 :: 10 :: []).take (b :: il).length = b :: il :=
      List.take_left _ _
    have hshape : (b :: il) ++ crlf = b :: (il ++ 13 :: 10 :: []) := by simp [crlf]
    unfold RespParser.parse
    rw [if_neg (by simp [List.isEmpty_iff])]
    simp only [detectFormat, List.cons_append]
    rw [if_neg (by simp [hb])]
    simp only [inlineParse, crlf]
    simp only [List.cons_append] at hfind htake
    rw [hfind]
    simp only [htake]
    rw [if_neg (by simp [hiu])]

/-- C10 witness: the byte 255 is not valid UTF-8 in any of the three
positions. -/
theorem claim_C10_witness :
    RespParser.parse (36 :: (natToDigits ([255] : List Nat).length ++ crlf ++ [255] ++ crlf))
      = (.error (ascii "Invalid UTF-8"), crlf) ∧
    RespParser.parse (43 :: ([255] ++ crlf)) = (.error (ascii "Invalid UTF-8"), []) ∧
    RespParser.parse ((65 :: [255]) ++ crlf)
      = (.error (ascii "Invalid UTF-8 in inline command"), (65 :: [255]) ++ crlf) :=
  claim_C10 [255] [255] [255] 65 (by decide) (by norm_num) (by decide) (by decide)
    (by decide) (by decide) (by decide)

theorem memLookup_cons (k : List Nat) (e : List Nat × StorageValue) (l : MemoryState) :
    memLookup k (e :: l) = if e.1 = k then some e.2 else memLookup k l := by
  by_cases h : e.1 = k
  · simp [memLookup, List.find?_cons_of_pos, h]
  · simp [memLookup, List.find?_cons_of_neg, h]

theorem memErase_cons (k : List Nat) (e : List Nat × StorageValue) (l : MemoryState) :
    memErase k (e :: l) = if e.1 = k then memErase k l else e :: memErase k l := by
  by_cases h : e.1 = k
  · simp [memErase, List.filter_cons, h]
  · simp [memErase, List.filter_cons, h]

theorem memLookup_cons_self (k : List Nat) (v : StorageValue) (st : MemoryState) :
    memLookup k ((k, v) :: st) = some v := by
  simp [memLookup_cons]

theorem memLookup_memErase_self (k : List Nat) (st : MemoryState) :
    memLookup k (memErase k st) = none := by
  induction st with
  | nil => rfl
  | cons e st2 ih =>
    rw [memErase_cons]
    by_cases hek : e.1 = k
    · simpa [hek] using ih
    · simp [hek, memLookup_cons, ih]

theorem memLookup_memErase_ne (k k2 : List Nat) (st : MemoryState) (h : k2 ≠ k) :
    memLookup k2 (memErase k st) = memLookup k2 st := by
  induction st with
  | nil => rfl
  | cons e st2 ih =>
    rw [memErase_cons]
    by_cases hek : e.1 = k
    · have he2 : ¬ (e.1 = k2) := by
        rw [hek]
        exact fun hc => h hc.symm
      simp [hek, he2, memLookup_cons, ih]
      rw [if_neg (fun hc => h hc.symm)]
    · simp [hek, memLookup_cons, ih]

/-- C6: after `set_with_expiry` records the absolute expiry `now + ttl`,
a `get` at any strictly later instant returns absent, removes the record
as part of that read, and leaves every other key untouched. -/
theorem claim_C6 (now t ttl : Nat) (k v : List Nat) (st : MemoryState)
    (ht : now + ttl < t) :
    (memGet t k (memSetWithExpiry now k v ttl st)).1 = none ∧
    memLookup k (memGet t k (memSetWithExpiry now k v ttl st)).2 = none ∧
    (∀ k2, k2 ≠ k →
      memLookup k2 (memGet t k (memSetWithExpiry now k v ttl st)).2
        = memLookup k2 st) := by
  have hstep : memSetWithExpiry now k v ttl st
      = (k, ⟨v, some (now + ttl)⟩) :: memErase k st := rfl
  have hlook : memLookup k (memSetWithExpiry now k v ttl st)
      = some ⟨v, some (now + ttl)⟩ := by
    rw [hstep]
    exact memLookup_cons_self _ _ _
  have hexp : StorageValue.isExpired t ⟨v, some (now + ttl)⟩ = true := by
    simp [StorageValue.isExpired]
    omega
  have hget : memGet t k (memSetWithExpiry now k v ttl st)
      = (none, memErase k (memSetWithExpiry now k v ttl st)) := by
    unfold memGet
    rw [hlook]
    simp [hexp]
  refine ⟨by rw [hget], ?_, ?_⟩
  · rw [hget]
    exact memLookup_memErase_self _ _
  · intro k2 hk2
    rw [hget]
    rw [memLookup_memErase_ne k k2 _ hk2, hstep]
    rw [memLookup_cons]
    rw [if_neg (fun hc => hk2 hc.symm)]
    exact memLookup_memErase_ne k k2 st hk2

/-- C6 witness at concrete instants 0, ttl 5, read at 10. -/
theorem claim_C6_witness :
    (memGet 10 (ascii "k") (memSetWithExpiry 0 (ascii "k") (ascii "v") 5 [])).1 = none ∧
    memLookup (ascii "k")
      (memGet 10 (ascii "k") (memSetWithExpiry 0 (ascii "k") (ascii "v") 5 [])).2 = none := by
  have h := claim_C6 0 10 5 (ascii "k") (ascii "v") [] (by norm_num)
  exact ⟨h.1, h.2.1⟩

/-- C5 (amended): `HELLO 2` and `HELLO 3` switch the connection protocol
version; a numeric argument within the `u8` range other than 2 or 3 gets
the unsupported-version error; an argument the `u8` parse rejects —
non-numeric, negative, or numerically too large for `u8` — gets the
must-be-a-number error; and every failing form leaves the version
unchanged. -/
theorem claim_C5 (pv : ProtocolVersion) (n : Nat) (s : List Nat)
    (hn : n ≤ 255) (h2 : n ≠ 2) (h3 : n ≠ 3) (hs : parseU8 s = none) :
    handleHello [.bulkString (some (ascii "2"))] pv = (helloResponse .resp2, .resp2) ∧
    handleHello [.bulkString (some (ascii "3"))] pv = (helloResponse .resp3, .resp3) ∧
    handleHello [.bulkString (some (natToDigits n))] pv
      = (.error (ascii "ERR unsupported protocol version: " ++ natToDigits n), pv) ∧
    handleHello [.bulkString (some s)] pv
      = (.error (ascii "ERR protocol version must be a number"), pv) := by
  refine ⟨?_, ?_, ?_, ?_⟩
  · simp [handleHello, show parseU8 (ascii "2") = some 2 from rfl]
  · simp [handleHello, show parseU8 (ascii "3") = some 3 from rfl]
  · have hp : parseU8 (natToDigits n) = some n := parseUDec_natToDigits 255 n hn
    simp [handleHello, hp, h2, h3]
  · simp [handleHello, hs]

/-- C5 counterexample to the claim as stated: `HELLO 256` carries a
numeric value, but the reply is the must-be-a-number error, not
`ERR unsupported protocol version: 256`, because the source parses the
version with `str::parse::<u8>` and 256 overflows `u8`. -/
theorem claim_C5_cex :
    (handleHello [.bulkString (some (ascii "256"))] .resp2).1
      = .error (ascii "ERR protocol version must be a number") ∧
    ascii "ERR protocol version must be a number"
      ≠ ascii "ERR unsupported protocol version: 256" :=
  ⟨rfl, by decide⟩

/-- C5 witness at version 4 and the non-numeric argument `abc`. -/
theorem claim_C5_witness :
    handleHello [.bulkString (some (ascii "2"))] .resp2 = (helloResponse .resp2, .resp2) ∧
    handleHello [.bulkString (some (natToDigits 4))] .resp2
      = (.error (ascii "ERR unsupported protocol version: " ++ natToDigits 4), .resp2) ∧
    handleHello [.bulkString (some (ascii "abc"))] .resp2
      = (.error (ascii "ERR protocol version must be a number"), .resp2) := by
  have h := claim_C5 .resp2 4 (ascii "abc") (by norm_num) (by norm_num) (by norm_num)
    (by decide)
  exact ⟨h.1, h.2.2.1, h.2.2.2⟩

/-- C3 (amended): argument-count mismatches (SET with fewer than two
arguments, DEL and EXISTS with none) and non-bulk values in the key and
value positions of SET produce RESP errors and leave the backend state
untouched; but SET with unrecognized or extra trailing arguments is not
an error — it performs a plain set and replies OK — and DEL skips a
non-bulk key (deleting nothing for it, without an error reply). -/
theorem claim_C3 (now : Nat) (st : MemoryState) (k v w : List Nat) (e : RespValue)
    (he : e.isBulk = false) :
    handleSet now [] st = (.error (ascii "Wrong number of arguments for SET"), st) ∧
    handleSet now [.bulkString (some k)] st
      = (.error (ascii "Wrong number of arguments for SET"), st) ∧
    handleSet now [e, .bulkString (some v)] st = (.error (ascii "Invalid key"), st) ∧
    handleSet now [.bulkString (some k), e] st = (.error (ascii "Invalid value"), st) ∧
    handleSet now [.bulkString (some k), .bulkString (some v), .bulkString (some w)] st
      = (.simpleString (ascii "OK"), memSet k v st) ∧
    handleDel [] st = (.error (ascii "Wrong number of arguments for DEL"), st) ∧
    handleExists now [] st = (.error (ascii "Wrong number of arguments for EXISTS"), st) ∧
    handleDel [e] st = (.integer 0, st) := by
  refine ⟨rfl, rfl, ?_, ?_, rfl, rfl, rfl, ?_⟩
  · cases e with
    | bulkString s =>
      cases s with
      | some s2 => simp [RespValue.isBulk] at he
      | none => rfl
    | _ => rfl
  · cases e with
    | bulkString s =>
      cases s with
      | some s2 => simp [RespValue.isBulk] at he
      | none => rfl
    | _ => rfl
  · cases e with
    | bulkString s =>
      cases s with
      | some s2 => simp [RespValue.isBulk] at he
      | none => rfl
    | _ => rfl

/-- C3 counterexample to the claim as stated: `SET k v XX` carries an
unrecognized trailing argument, yet the reply is `OK`, not an error, and
the backend is written (the state gains the record). -/
theorem claim_C3_cex :
    handleSet 0 [.bulkString (some (ascii "k")), .bulkString (some (ascii "v")),
        .bulkString (some (ascii "XX"))] []
      = (.simpleString (ascii "OK"), [(ascii "k", ⟨ascii "v", none⟩)]) ∧
    (RespValue.simpleString (ascii "OK")).isError = false ∧
    [(ascii "k", (⟨ascii "v", none⟩ : StorageValue))] ≠ ([] : MemoryState) :=
  ⟨rfl, rfl, by decide⟩

/-- C3 witness with the non-bulk argument instantiated to the null frame. -/
theorem claim_C3_witness :
    handleSet 0 [] [] = (.error (ascii "Wrong number of arguments for SET"), []) ∧
    handleSet 0 [.null, .bulkString (some (ascii "b"))] []
      = (.error (ascii "Invalid key"), []) ∧
    handleDel [.null] [] = (.integer 0, []) := by
  have h := claim_C3 0 [] (ascii "a") (ascii "b") (ascii "c") .null rfl
  exact ⟨h.1, h.2.2.1, h.2.2.2.2.2.2.2⟩

/-- The map invariant of the memory backend: one entry per key. -/
abbrev UniqueKeys (st : MemoryState) : Prop := (st.map Prod.fst).Nodup

theorem uniqueKeys_memErase (k : List Nat) (st : MemoryState) (h : UniqueKeys st) :
    UniqueKeys (memErase k st) := by
  unfold UniqueKeys at h ⊢
  exact List.Nodup.sublist (List.Sublist.map _ (List.filter_sublist st)) h

theorem notMem_memErase (k : List Nat) (st : MemoryState)
    (h : ∀ x ∈ st, x.1 ≠ k) : memErase k st = st := by
  induction st with
  | nil => rfl
  | cons e st2 ih =>
    rw [memErase_cons, if_neg (h e (List.mem_cons_self _ _))]
    rw [ih (fun x hx => h x (List.mem_cons_of_mem _ hx))]

theorem delCount (k : List Nat) (ks : List (List Nat)) :
    ∀ st : MemoryState, UniqueKeys st →
      ((memLookup k st).isSome.toNat)
        + (memErase k st).countP (fun e => decide (e.1 ∈ ks))
        = st.countP (fun e => decide (e.1 ∈ k :: ks)) := by
  intro st
  induction st with
  | nil => intro _; rfl
  | cons e st2 ih =>
    intro h
    have hnd := h
    unfold UniqueKeys at hnd
    rw [List.map_cons, List.nodup_cons] at hnd
    have h1 : e.1 ∉ st2.map Prod.fst := hnd.1
    have h2 : UniqueKeys st2 := hnd.2
    have hne2 : ∀ x ∈ st2, x.1 ≠ e.1 := by
      intro x hx hc
      exact h1 (by rw [← hc]; exact List.mem_map_of_mem _ hx)
    rw [memLookup_cons, memErase_cons]
    by_cases hek : e.1 = k
    · rw [if_pos hek, if_pos hek]
      have hra : memErase k st2 = st2 :=
        notMem_memErase k st2 (fun x hx hc => hne2 x hx (by rw [hc, hek]))
      rw [hra, List.countP_cons]
      have hmem : decide (e.1 ∈ k :: ks) = true := by simp [hek]
      have hc : st2.countP (fun x => decide (x.1 ∈ k :: ks))
          = st2.countP (fun x => decide (x.1 ∈ ks)) := by
        apply List.countP_congr
        intro x hx
        have hxk : x.1 ≠ k := fun hcc => hne2 x hx (by rw [hcc, hek])
        simp [List.mem_cons, hxk]
      rw [hmem, hc]
      simp only [Option.isSome_some, Bool.toNat_true, if_true]
      omega
    · rw [if_neg hek, if_neg hek]
      rw [List.countP_cons, List.countP_cons]
      have hrec := ih h2
      have hdec : decide (e.1 ∈ k :: ks) = decide (e.1 ∈ ks) := by
        simp [List.mem_cons, hek]
      rw [hdec]
      omega

theorem handleDelLoop_spec (ks : List (List Nat)) :
    ∀ (st : MemoryState) (c : Nat), UniqueKeys st →
      handleDelLoop (ks.map (fun k2 => .bulkString (some k2))) st c
        = (c + st.countP (fun e => decide (e.1 ∈ ks)),
           st.filter (fun e => !decide (e.1 ∈ ks))) := by
  induction ks with
  | nil =>
    intro st c h
    simp [handleDelLoop, List.filter_true]
  | cons k ks ih =>
    intro st c h
    simp only [List.map_cons, handleDelLoop, memDelete]
    rw [ih (memErase k st) _ (uniqueKeys_memErase k st h)]
    have hcnt := delCount k ks st h
    have hfil : (memErase k st).filter (fun e => !decide (e.1 ∈ ks))
        = st.filter (fun e => !decide (e.1 ∈ k :: ks)) := by
      unfold memErase
      rw [List.filter_filter]
      apply List.filter_congr
      intro x hx
      by_cases hxk : x.1 = k
      · simp [hxk]
      · by_cases hxm : x.1 ∈ ks <;> simp [hxk, hxm, List.mem_cons]
    rw [hfil]
    by_cases hs : (memLookup k st).isSome
    · simp only [hs, if_true]
      simp only [hs, Bool.toNat_true] at hcnt
      rw [Prod.mk.injEq]
      exact ⟨by omega, rfl⟩
    · simp only [Bool.not_eq_true] at hs
      simp only [hs, Bool.false_eq_true, if_false]
      simp only [hs, Bool.toNat_false] at hcnt
      rw [Prod.mk.injEq]
      exact ⟨by omega, rfl⟩

theorem memExists_of_not_expired (now : Nat) (k : List Nat) (st : MemoryState)
    (h : ∀ e ∈ st, e.2.isExpired now = false) :
    memExists now k st = ((memLookup k st).isSome, st) := by
  unfold memExists
  cases hl : memLookup k st with
  | none => simp
  | some sv =>
    have hmem : ∃ e ∈ st, e.2 = sv := by
      unfold memLookup at hl
      cases hf : List.find? (fun e => e.1 == k) st with
      | none => simp [hf] at hl
      | some e =>
        have hm := List.mem_of_find?_eq_some hf
        simp [hf] at hl
        exact ⟨e, hm, hl⟩
    obtain ⟨e, he, hesv⟩ := hmem
    have hne := h e he
    rw [hesv] at hne
    simp [hne]

theorem handleExistsLoop_spec (ks : List (List Nat)) :
    ∀ (st : MemoryState) (c now : Nat), (∀ e ∈ st, e.2.isExpired now = false) →
      handleExistsLoop now (ks.map (fun k2 => .bulkString (some k2))) st c
        = (c + ks.countP (fun k2 => (memLookup k2 st).isSome), st) := by
  induction ks with
  | nil =>
    intro st c now h
    simp [handleExistsLoop]
  | cons k ks ih =>
    intro st c now h
    simp only [List.map_cons, handleExistsLoop]
    rw [memExists_of_not_expired now k st h]
    rw [ih st _ now h]
    rw [List.countP_cons]
    by_cases hs : (memLookup k st).isSome
    · simp [hs]
      omega
    · simp only [Bool.not_eq_true] at hs
      simp [hs]

/-- C8: over the memory backend with unique keys and no expired records,
DEL over bulk-string keys replies with the number of records actually
removed (each stored key whose name occurs among the arguments, once) and
removes exactly those records, while EXISTS replies with the number of
argument occurrences whose key is present — multiplicity counts — and
leaves the state unchanged. -/
theorem claim_C8 (ks : List (List Nat)) (st : MemoryState) (now : Nat)
    (hu : UniqueKeys st) (hne : ks ≠ [])
    (hexp : ∀ e ∈ st, e.2.isExpired now = false) :
    handleDel (ks.map (fun k => .bulkString (some k))) st
      = (.integer (st.countP (fun e => decide (e.1 ∈ ks)) : Int),
         st.filter (fun e => !decide (e.1 ∈ ks))) ∧
    handleExists now (ks.map (fun k => .bulkString (some k))) st
      = (.integer (ks.countP (fun k => (memLookup k st).isSome) : Int), st) := by
  constructor
  · unfold handleDel
    rw [if_neg (by simp [List.isEmpty_iff, hne])]
    rw [handleDelLoop_spec ks st 0 hu]
    simp
  · unfold handleExists
    rw [if_neg (by simp [List.isEmpty_iff, hne])]
    rw [handleExistsLoop_spec ks st 0 now hexp]
    simp

/-- C8 witness: DEL over three keys of which exactly one is stored
returns 1 and leaves the store empty; EXISTS with the same stored key
given twice returns 2 and changes nothing. -/
theorem claim_C8_witness :
    handleDel [.bulkString (some (ascii "a")), .bulkString (some (ascii "b")),
        .bulkString (some (ascii "c"))] [(ascii "a", ⟨ascii "x", none⟩)]
      = (.integer 1, []) ∧
    handleExists 0 [.bulkString (some (ascii "a")), .bulkString (some (ascii "a"))]
        [(ascii "a", ⟨ascii "x", none⟩)]
      = (.integer 2, [(ascii "a", ⟨ascii "x", none⟩)]) := by
  have h1 := (claim_C8 [ascii "a", ascii "b", ascii "c"]
    [(ascii "a", ⟨ascii "x", none⟩)] 0 (by decide) (by decide) (by decide)).1
  have h2 := (claim_C8 [ascii "a", ascii "a"]
    [(ascii "a", ⟨ascii "x", none⟩)] 0 (by decide) (by decide) (by decide)).2
  constructor
  · exact h1.trans (by rfl)
  · exact h2.trans (by rfl)
